import Mathlib

/-!
# Verification of the cloth/fabric simulation (`sails.ts`)

Shallow embedding of the Verlet cloth simulation implemented by
`FabricSimulationComponent` together with its helper classes `Particle`
and `Constraint`.  Numbers are modelled by `ℝ`; the JavaScript `isNaN`
guards are vacuous over `ℝ` and are noted where they occur in the source.
Mutable component state is modelled by explicit state passing
(`SimState`), and the per-frame `simulate()` method becomes a state
transformer.  Grid dimensions and the other constructor fields are
collected in a `Config` record mirroring the component's fields; the
component itself uses `defaultConfig`.
-/

namespace Fabric

noncomputable section

/-- A 3-component vector of reals, modelling `THREE.Vector3`. -/
@[ext]
structure Vec3 where
  x : ℝ
  y : ℝ
  z : ℝ

instance : Add Vec3 := ⟨fun a b => ⟨a.x + b.x, a.y + b.y, a.z + b.z⟩⟩

instance : Sub Vec3 := ⟨fun a b => ⟨a.x - b.x, a.y - b.y, a.z - b.z⟩⟩

instance : SMul ℝ Vec3 := ⟨fun r v => ⟨r * v.x, r * v.y, r * v.z⟩⟩

instance : Zero Vec3 := ⟨⟨0, 0, 0⟩⟩

/-- Source `THREE.Vector3.length()`: the Euclidean norm. -/
def Vec3.length (v : Vec3) : ℝ :=
  Real.sqrt (v.x ^ 2 + v.y ^ 2 + v.z ^ 2)

/-- The `Particle` helper class (`sails.ts` lines 492–509).  The source
constructor sets `oldPosition := position.clone()`, `acceleration := 0`
and `pinned := false`; here every field is explicit. -/
structure Particle where
  position : Vec3
  oldPosition : Vec3
  acceleration : Vec3
  pinned : Bool
  mass : ℝ

instance : Inhabited Particle :=
  ⟨{ position := ⟨0, 0, 0⟩, oldPosition := ⟨0, 0, 0⟩, acceleration := ⟨0, 0, 0⟩,
     pinned := false, mass := 0 }⟩

/-- The constructor-time fields of `FabricSimulationComponent` that the
grid build depends on (lines 48–59).  The actual component uses
`defaultConfig`. -/
structure Config where
  clothWidth : ℝ
  clothHeight : ℝ
  segmentsW : ℕ
  segmentsH : ℕ
  MASS : ℝ

/-- The field values of the component: `clothWidth = 60`,
`clothHeight = 50`, `segmentsW = 40`, `segmentsH = 30`, `MASS = 0.1`. -/
def defaultConfig : Config :=
  { clothWidth := 60, clothHeight := 50, segmentsW := 40, segmentsH := 30, MASS := 0.1 }

/-- Source `this.restDistance = (this.clothWidth / this.segmentsW) * 0.9` (line 76). -/
def Config.restDistance (cfg : Config) : ℝ :=
  (cfg.clothWidth / (cfg.segmentsW : ℝ)) * 0.9

/-- Source `index(u, v) = u + v * (segmentsW + 1)` (lines 486–488). -/
def Config.index (cfg : Config) (u v : ℕ) : ℕ :=
  u + v * (cfg.segmentsW + 1)

/-- Source `this.DAMPING = 0.02` (line 57). -/
def DAMPING : ℝ := 0.02

/-- Source `this.DRAG = 1 - this.DAMPING` (line 58). -/
def DRAG : ℝ := 1 - DAMPING

/-- Source `this.MAX_DISPLACEMENT = 5` (line 63). -/
def MAX_DISPLACEMENT : ℝ := 5

/-- Source `this.timeStep = 1 / 60` (line 70). -/
def timeStep : ℝ := 1 / 60

/-- Source `this.maxScrollVelocity = 15` (line 68). -/
def maxScrollVelocity : ℝ := 15

/-- The constant gravity vector of `simulate()` (line 358). -/
def gravity : Vec3 := ⟨0, -0.2, 0⟩

/-- Source `Particle.addForce` (lines 503–508): `acceleration += force / mass`.
The source guards the update with `!isNaN` on each component of
`force / mass`; over `ℝ` no component is ever NaN, so the guard always
passes and the update is unconditional. -/
def Particle.addForce (p : Particle) (force : Vec3) : Particle :=
  { p with acceleration := p.acceleration +
      ⟨force.x / p.mass, force.y / p.mass, force.z / p.mass⟩ }

/-- The force-accumulation stage of `simulate()` for one unpinned
particle (lines 362–378): gravity, then the wind effect
`(0, 0, windForce.y)`, then the flattening force
`(0, 0, -position.z * 0.02)`. -/
def applyForces (wind : Vec3) (p : Particle) : Particle :=
  let p1 := p.addForce gravity
  let p2 := p1.addForce ⟨0, 0, wind.y⟩
  p2.addForce ⟨0, 0, -p2.position.z * 0.02⟩

/-- The unclamped Verlet target position (lines 381–393):
`position + (position - oldPosition) * DRAG + acceleration * timeStep²`. -/
def rawNewPos (p : Particle) : Vec3 :=
  p.position + DRAG • (p.position - p.oldPosition) +
    (timeStep * timeStep) • p.acceleration

/-- The Verlet integration, displacement clamp, and commit for one
particle (lines 380–407).  When the displacement exceeds
`MAX_DISPLACEMENT` the source normalizes it and rescales to the cap
(`normalize().multiplyScalar(MAX_DISPLACEMENT)`), i.e. multiplies it by
`MAX_DISPLACEMENT / length`. -/
def verletStep (p : Particle) : Particle :=
  let newPos := rawNewPos p
  let displacement := newPos - p.position
  let newPos' :=
    if MAX_DISPLACEMENT < displacement.length then
      p.position + (MAX_DISPLACEMENT / displacement.length) • displacement
    else newPos
  { p with oldPosition := p.position, position := newPos',
           acceleration := ⟨0, 0, 0⟩ }

/-- The whole per-particle body of the integration loop of `simulate()`
(lines 361–409): pinned particles are skipped entirely. -/
def integrateParticle (wind : Vec3) (p : Particle) : Particle :=
  if p.pinned then p else verletStep (applyForces wind p)

/-- The unclamped per-step displacement an unpinned particle would get
(line 396–399): `rawNewPos - position`, computed after force
accumulation. -/
def rawDisplacement (wind : Vec3) (p : Particle) : Vec3 :=
  rawNewPos (applyForces wind p) - (applyForces wind p).position

/-- The `Constraint` helper class (lines 511–516); the two particles are
referenced here by their index in the particle array, `dist` is the rest
distance. -/
structure Constraint where
  p1 : ℕ
  p2 : ℕ
  dist : ℝ

/-- Source `Constraint.satisfy` (lines 518–541), acting on the two endpoint
particles and returning their updated versions.  The source returns
early when `currentDist === 0 || isNaN(currentDist)`; over `ℝ` the
`isNaN` disjunct is vacuous.  Otherwise each endpoint that is not pinned
moves by half of the correction vector
`(1 - dist / currentDist) • (p2.position - p1.position)`. -/
def satisfy (dist : ℝ) (p1 p2 : Particle) : Particle × Particle :=
  let p1p2 := p2.position - p1.position
  let currentDist := p1p2.length
  if currentDist = 0 then (p1, p2)
  else
    let correction := (1 - dist / currentDist) • p1p2
    let correctionHalf := (0.5 : ℝ) • correction
    (if p1.pinned then p1 else { p1 with position := p1.position + correctionHalf },
     if p2.pinned then p2 else { p2 with position := p2.position - correctionHalf })

/-- The particle of `createCloth` at grid coordinates `(u, v)`
(lines 152–166): position from the flat-plane `clothFunction`
(`x = (u/segmentsW - 0.5) * clothWidth`,
`y = (v/segmentsH - 0.5) * clothHeight`, `z = 0`), `oldPosition` a clone
of it, zero acceleration, and `pinned` exactly on the top row `v = 0`. -/
def mkParticle (cfg : Config) (u v : ℕ) : Particle :=
  let pos : Vec3 :=
    ⟨((u : ℝ) / (cfg.segmentsW : ℝ) - 0.5) * cfg.clothWidth,
     ((v : ℝ) / (cfg.segmentsH : ℝ) - 0.5) * cfg.clothHeight, 0⟩
  { position := pos, oldPosition := pos, acceleration := ⟨0, 0, 0⟩,
    pinned := decide (v = 0), mass := cfg.MASS }

/-- The particle array built by `createCloth` (lines 152–167): the outer
loop runs `v = 0 … segmentsH`, the inner loop `u = 0 … segmentsW`, and
particles are pushed in that order, so particle `(u, v)` sits at array
index `u + v * (segmentsW + 1)`.  The stored `initialPositions` coincide
with the particles' initial positions. -/
def createParticles (cfg : Config) : List Particle :=
  (List.range (cfg.segmentsH + 1)).flatMap fun v =>
    (List.range (cfg.segmentsW + 1)).map fun u => mkParticle cfg u v

/-- The constraint array built by `createCloth` (lines 169–192), in push
order: the main double loop (`v < segmentsH` outer, `u < segmentsW`
inner) pushes, per cell, the right-neighbor constraint then the
below-neighbor constraint; afterwards one loop pushes the right-neighbor
constraints of the last row, and one loop the below-neighbor constraints
of the last column.  Every constraint gets the same `restDistance`. -/
def createConstraints (cfg : Config) : List Constraint :=
  ((List.range cfg.segmentsH).flatMap fun v =>
    (List.range cfg.segmentsW).flatMap fun u =>
      [⟨cfg.index u v, cfg.index (u + 1) v, cfg.restDistance⟩,
       ⟨cfg.index u v, cfg.index u (v + 1), cfg.restDistance⟩])
  ++ ((List.range cfg.segmentsW).map fun u =>
      ⟨cfg.index u cfg.segmentsH, cfg.index (u + 1) cfg.segmentsH, cfg.restDistance⟩)
  ++ ((List.range cfg.segmentsH).map fun v =>
      ⟨cfg.index cfg.segmentsW v, cfg.index cfg.segmentsW (v + 1), cfg.restDistance⟩)

/-- The index pairs `(p1, p2)` of a constraint list, in order. -/
def constraintPairs (cs : List Constraint) : List (ℕ × ℕ) :=
  cs.map fun c => (c.p1, c.p2)

/-- The index pairs pushed by the main double loop of `createCloth`
(lines 170–179): per cell, the horizontal pair then the vertical pair,
cells in row-major order. -/
def mainPairs (cfg : Config) : List (ℕ × ℕ) :=
  (List.range cfg.segmentsH).flatMap fun v =>
    (List.range cfg.segmentsW).flatMap fun u =>
      [(cfg.index u v, cfg.index (u + 1) v), (cfg.index u v, cfg.index u (v + 1))]

/-- The horizontal index pairs of the last row (lines 182–186). -/
def lastRowPairs (cfg : Config) : List (ℕ × ℕ) :=
  (List.range cfg.segmentsW).map fun u =>
    (cfg.index u cfg.segmentsH, cfg.index (u + 1) cfg.segmentsH)

/-- The vertical index pairs of the last column (lines 188–192). -/
def lastColPairs (cfg : Config) : List (ℕ × ℕ) :=
  (List.range cfg.segmentsH).map fun v =>
    (cfg.index cfg.segmentsW v, cfg.index cfg.segmentsW (v + 1))

/-- The constraint index pairs in the source's push order, written out
directly over `ℕ` (this is the order the amended claim C6 describes:
per cell of the main double loop the horizontal pair then the vertical
pair, then the last row's horizontal pairs, then the last column's
vertical pairs). -/
def indexPairs (cfg : Config) : List (ℕ × ℕ) :=
  mainPairs cfg ++ lastRowPairs cfg ++ lastColPairs cfg

/-- The constraint order asserted by claim C6, following its words:
first all horizontal (right-neighbor) pairs in row-major order, then all
vertical (below-neighbor) pairs. -/
def claimedPairs (cfg : Config) : List (ℕ × ℕ) :=
  ((List.range (cfg.segmentsH + 1)).flatMap fun v =>
    (List.range cfg.segmentsW).map fun u =>
      (cfg.index u v, cfg.index (u + 1) v))
  ++ ((List.range cfg.segmentsH).flatMap fun v =>
    (List.range (cfg.segmentsW + 1)).map fun u =>
      (cfg.index u v, cfg.index u (v + 1)))

/-- One `constraint.satisfy()` call acting on the particle array
(lines 414–416): read both endpoints, compute the corrected pair, write
both endpoints back. -/
def satisfyAt (ps : List Particle) (c : Constraint) : List Particle :=
  let q := satisfy c.dist (ps.getD c.p1 default) (ps.getD c.p2 default)
  (ps.set c.p1 q.1).set c.p2 q.2

/-- One relaxation pass: every constraint in order, Gauss-Seidel style
(the fold threads the partially corrected array through). -/
def relaxOnce (cs : List Constraint) (ps : List Particle) : List Particle :=
  cs.foldl satisfyAt ps

/-- The constraint-satisfaction stage of `simulate()` (lines 411–417):
`numIterations = 5` full passes. -/
def relax (cs : List Constraint) (ps : List Particle) : List Particle :=
  (relaxOnce cs)^[5] ps

/-- Source `checkSimulationExploded` (lines 429–445): some particle has a
position coordinate of magnitude above 1000.  The source also tests
`isNaN` on each coordinate, which is vacuous over `ℝ`. -/
def checkSimulationExploded (ps : List Particle) : Prop :=
  ∃ p ∈ ps, 1000 < |p.position.x| ∨ 1000 < |p.position.y| ∨ 1000 < |p.position.z|

/-- The mutable component state that `simulate()` touches: the particle
array, the constraint array, the shared wind-force vector, and the
`isSimulationActive` flag (the `Active`/`Idle` mode of the spec). -/
structure SimState where
  particles : List Particle
  constraints : List Constraint
  windForce : Vec3
  isSimulationActive : Bool

/-- The state after `ngOnInit`'s `createCloth()` (and equally after
`fullReset`, lines 447–462, which re-runs `createCloth()`, zeroes the
wind force and clears `isSimulationActive`). -/
def initState (cfg : Config) : SimState :=
  { particles := createParticles cfg, constraints := createConstraints cfg,
    windForce := ⟨0, 0, 0⟩, isSimulationActive := false }

/-- The integration stage of `simulate()` (lines 361–409) over the whole
particle array. -/
def integrateAll (s : SimState) : List Particle :=
  s.particles.map (integrateParticle s.windForce)

/-- The particle array of `simulate()` after integration and the five
constraint-relaxation passes (lines 361–417). -/
def afterConstraints (s : SimState) : List Particle :=
  relax s.constraints (integrateAll s)

open Classical in
/-- Source `simulate()` (lines 356–427) as a state transformer: integrate and
relax; if the explosion check fires, `fullReset()` rebuilds the cloth at
rest pose, zeroes the wind force and stops the simulation (which is
exactly `initState`); otherwise the updated particles are kept (the
geometry push to the renderer carries no simulation state). -/
def simulate (cfg : Config) (s : SimState) : SimState :=
  if checkSimulationExploded (afterConstraints s) then initState cfg
  else { s with particles := afterConstraints s }

/-- Overwriting the shared wind-force vector, as the gsap tweens started
by `handleScroll`/`resetFabric` do between frames. -/
def setWind (w : Vec3) (s : SimState) : SimState :=
  { s with windForce := w }

/-- States reachable from the initial build by any number of
`simulate()` calls, with the wind force set arbitrarily before each call
(covering every behaviour of the scroll handler and its tweens). -/
inductive Reaches (cfg : Config) : SimState → Prop
  | init : Reaches cfg (initState cfg)
  | step (w : Vec3) (s : SimState) : Reaches cfg s →
      Reaches cfg (simulate cfg (setWind w s))

open Classical in
/-- Source `isClothStable` (lines 310–337): true unless some unpinned particle
moves more than `0.01` in norm or more than `0.05` along z between the
stored previous position and the current one. -/
def isClothStable (ps : List Particle) : Bool :=
  ps.all fun p =>
    if p.pinned then true
    else !(decide ((0.01 : ℝ) < (p.position - p.oldPosition).length) ||
           decide ((0.05 : ℝ) < |p.position.z - p.oldPosition.z|))

/-- The clamped scroll velocity of `handleScroll` (lines 236–243):
`clamp(currentScrollY - previousScrollY, -15, 15)` via
`Math.max(-max, Math.min(max, v))`. -/
def clampedScrollVelocity (previousScrollY currentScrollY : ℝ) : ℝ :=
  max (-maxScrollVelocity)
    (min maxScrollVelocity (currentScrollY - previousScrollY))

open Classical in
/-- The wind-force target `handleScroll` passes to the gsap tween
(lines 246–255): set only when the clamped velocity magnitude exceeds 1,
and then equal to the clamped velocity scaled by `0.15`; `none` when no
tween is started. -/
def windTarget (previousScrollY currentScrollY : ℝ) : Option ℝ :=
  let v := clampedScrollVelocity previousScrollY currentScrollY
  if 1 < |v| then some (v * 0.15) else none

/-- The invariant backing claim C1: the particle array keeps its size
and every pinned particle keeps both its pinned flag and its initial
position. -/
def PinnedInv (cfg : Config) (s : SimState) : Prop :=
  s.particles.length = (createParticles cfg).length ∧
  ∀ i : ℕ, ∀ hi : i < s.particles.length,
    ∀ hj : i < (createParticles cfg).length,
      (s.particles.get ⟨i, hi⟩).pinned = ((createParticles cfg).get ⟨i, hj⟩).pinned ∧
      ((s.particles.get ⟨i, hi⟩).pinned = true →
        (s.particles.get ⟨i, hi⟩).position =
          ((createParticles cfg).get ⟨i, hj⟩).position)

/-! Concrete inputs used by the witness theorems. -/

/-- A small grid configuration (one segment each way, four particles)
used by witnesses. -/
def cfgSmall : Config :=
  { clothWidth := 60, clothHeight := 50, segmentsW := 1, segmentsH := 1, MASS := 0.1 }

/-- A pinned particle sitting far outside the explosion bound. -/
def pFar : Particle :=
  { position := ⟨2000, 0, 0⟩, oldPosition := ⟨2000, 0, 0⟩,
    acceleration := ⟨0, 0, 0⟩, pinned := true, mass := 0.1 }

/-- A state whose next `simulate()` call detects an explosion: one
pinned out-of-range particle and no constraints. -/
def sFar : SimState :=
  { particles := [pFar], constraints := [], windForce := ⟨0, 0, 0⟩,
    isSimulationActive := true }

/-- An unpinned particle at rest at the origin. -/
def pStill : Particle :=
  { position := ⟨0, 0, 0⟩, oldPosition := ⟨0, 0, 0⟩,
    acceleration := ⟨0, 0, 0⟩, pinned := false, mass := 0.1 }

/-- An unpinned particle whose accumulated acceleration cancels gravity
and whose Verlet displacement is 50 units long, so the clamp fires. -/
def pFast : Particle :=
  { position := ⟨0, 0, 0⟩, oldPosition := ⟨-(50 / DRAG), 0, 0⟩,
    acceleration := ⟨0, 2, 0⟩, pinned := false, mass := 0.1 }

/-- An unpinned particle at `(3, 0, 0)`, at rest. -/
def pThree : Particle :=
  { position := ⟨3, 0, 0⟩, oldPosition := ⟨3, 0, 0⟩,
    acceleration := ⟨0, 0, 0⟩, pinned := false, mass := 0.1 }

/-! ## Component-level lemmas -/

@[simp]
theorem Vec3.add_x (a b : Vec3) : (a + b).x = a.x + b.x := rfl

@[simp]
theorem Vec3.add_y (a b : Vec3) : (a + b).y = a.y + b.y := rfl

@[simp]
theorem Vec3.add_z (a b : Vec3) : (a + b).z = a.z + b.z := rfl

@[simp]
theorem Vec3.sub_x (a b : Vec3) : (a - b).x = a.x - b.x := rfl

@[simp]
theorem Vec3.sub_y (a b : Vec3) : (a - b).y = a.y - b.y := rfl

@[simp]
theorem Vec3.sub_z (a b : Vec3) : (a - b).z = a.z - b.z := rfl

@[simp]
theorem Vec3.smul_x (r : ℝ) (v : Vec3) : (r • v).x = r * v.x := rfl

@[simp]
theorem Vec3.smul_y (r : ℝ) (v : Vec3) : (r • v).y = r * v.y := rfl

@[simp]
theorem Vec3.smul_z (r : ℝ) (v : Vec3) : (r • v).z = r * v.z := rfl

theorem Vec3.length_le_iff {c : ℝ} (v : Vec3) (hc : 0 ≤ c) :
    v.length ≤ c ↔ v.x ^ 2 + v.y ^ 2 + v.z ^ 2 ≤ c ^ 2 := by
  rw [Vec3.length]
  exact Real.sqrt_le_left hc

theorem Vec3.length_smul (a : ℝ) (v : Vec3) :
    (a • v).length = |a| * v.length := by
  rw [Vec3.length, Vec3.length]
  simp only [Vec3.smul_x, Vec3.smul_y, Vec3.smul_z]
  rw [show (a * v.x) ^ 2 + (a * v.y) ^ 2 + (a * v.z) ^ 2 =
      a ^ 2 * (v.x ^ 2 + v.y ^ 2 + v.z ^ 2) by ring,
    Real.sqrt_mul (sq_nonneg a), Real.sqrt_sq_eq_abs]

theorem Vec3.length_mk_x (a : ℝ) : (Vec3.mk a 0 0).length = |a| := by
  rw [Vec3.length]
  norm_num [Real.sqrt_sq_eq_abs]

theorem Vec3.length_nonneg (v : Vec3) : 0 ≤ v.length :=
  Real.sqrt_nonneg _

/-! Projections of the per-particle simulation stages. -/

@[simp]
theorem addForce_position (p : Particle) (f : Vec3) :
    (p.addForce f).position = p.position := rfl

@[simp]
theorem addForce_oldPosition (p : Particle) (f : Vec3) :
    (p.addForce f).oldPosition = p.oldPosition := rfl

@[simp]
theorem addForce_pinned (p : Particle) (f : Vec3) :
    (p.addForce f).pinned = p.pinned := rfl

@[simp]
theorem addForce_mass (p : Particle) (f : Vec3) :
    (p.addForce f).mass = p.mass := rfl

theorem addForce_acceleration (p : Particle) (f : Vec3) :
    (p.addForce f).acceleration =
      p.acceleration + ⟨f.x / p.mass, f.y / p.mass, f.z / p.mass⟩ := rfl

@[simp]
theorem applyForces_position (w : Vec3) (p : Particle) :
    (applyForces w p).position = p.position := rfl

@[simp]
theorem applyForces_oldPosition (w : Vec3) (p : Particle) :
    (applyForces w p).oldPosition = p.oldPosition := rfl

@[simp]
theorem applyForces_pinned (w : Vec3) (p : Particle) :
    (applyForces w p).pinned = p.pinned := rfl

@[simp]
theorem applyForces_mass (w : Vec3) (p : Particle) :
    (applyForces w p).mass = p.mass := rfl

@[simp]
theorem verletStep_oldPosition (p : Particle) :
    (verletStep p).oldPosition = p.position := rfl

@[simp]
theorem verletStep_acceleration (p : Particle) :
    (verletStep p).acceleration = ⟨0, 0, 0⟩ := rfl

@[simp]
theorem verletStep_pinned (p : Particle) :
    (verletStep p).pinned = p.pinned := rfl

theorem verletStep_position (p : Particle) :
    (verletStep p).position =
      if MAX_DISPLACEMENT < (rawNewPos p - p.position).length then
        p.position +
          (MAX_DISPLACEMENT / (rawNewPos p - p.position).length) •
            (rawNewPos p - p.position)
      else rawNewPos p := rfl

theorem integrateParticle_of_pinned {p : Particle} (w : Vec3)
    (hp : p.pinned = true) : integrateParticle w p = p := by
  simp [integrateParticle, hp]

theorem integrateParticle_of_not_pinned {p : Particle} (w : Vec3)
    (hp : p.pinned = false) :
    integrateParticle w p = verletStep (applyForces w p) := by
  simp [integrateParticle, hp]

@[simp]
theorem integrateParticle_pinned (w : Vec3) (p : Particle) :
    (integrateParticle w p).pinned = p.pinned := by
  by_cases hp : p.pinned
  · rw [integrateParticle_of_pinned w hp]
  · rw [integrateParticle_of_not_pinned w (by simpa using hp)]
    simp

/-! Projections of `satisfy`. -/

@[simp]
theorem satisfy_fst_pinned (d : ℝ) (p1 p2 : Particle) :
    (satisfy d p1 p2).1.pinned = p1.pinned := by
  simp only [satisfy]
  split_ifs <;> rfl

@[simp]
theorem satisfy_snd_pinned (d : ℝ) (p1 p2 : Particle) :
    (satisfy d p1 p2).2.pinned = p2.pinned := by
  simp only [satisfy]
  split_ifs <;> rfl

theorem satisfy_fst_of_pinned {p1 : Particle} (d : ℝ) (p2 : Particle)
    (h : p1.pinned = true) : (satisfy d p1 p2).1 = p1 := by
  simp only [satisfy]
  split_ifs <;> rfl

theorem satisfy_snd_of_pinned {p2 : Particle} (d : ℝ) (p1 : Particle)
    (h : p2.pinned = true) : (satisfy d p1 p2).2 = p2 := by
  simp only [satisfy]
  split_ifs <;> rfl

theorem Vec3.add_sub_cancel_left (a w : Vec3) : a + w - a = w := by
  ext <;> simp

/-! ## Claim C3: the Verlet integration formula and commit -/

/-- C3: for an unpinned particle whose unclamped displacement is within
the cap, one integration step of `simulate()` sets the position to
`position + (position - previousPosition) * 0.98 + acceleration * (1/60)²`
(with the acceleration accumulated by the force stage), commits the old
position to the pre-update position, and zeroes the acceleration. -/
theorem verlet_integration_commit (wind : Vec3) (p : Particle)
    (hpin : p.pinned = false)
    (hsmall : (rawDisplacement wind p).length ≤ MAX_DISPLACEMENT) :
    (integrateParticle wind p).position =
      p.position + ((0.98 : ℝ) • (p.position - p.oldPosition) +
        ((1 / 60 : ℝ) * (1 / 60)) • (applyForces wind p).acceleration) ∧
    (integrateParticle wind p).oldPosition = p.position ∧
    (integrateParticle wind p).acceleration = ⟨0, 0, 0⟩ := by
  rw [integrateParticle_of_not_pinned wind hpin]
  refine ⟨?_, by simp, by simp⟩
  rw [verletStep_position]
  have hdef : rawNewPos (applyForces wind p) - (applyForces wind p).position =
      rawDisplacement wind p := rfl
  rw [hdef, if_neg (not_lt.mpr hsmall)]
  have hD : DRAG = (0.98 : ℝ) := by norm_num [DRAG, DAMPING]
  have ht : timeStep = (1 / 60 : ℝ) := rfl
  rw [rawNewPos, applyForces_position, applyForces_oldPosition, hD, ht]
  ext <;> simp <;> ring

/-- Witness for C3 at a resting unpinned particle with zero wind. -/
theorem verlet_integration_commit_witness :
    pStill.pinned = false ∧
    (rawDisplacement ⟨0, 0, 0⟩ pStill).length ≤ MAX_DISPLACEMENT ∧
    (integrateParticle ⟨0, 0, 0⟩ pStill).oldPosition = pStill.position := by
  have h1 : pStill.pinned = false := rfl
  have hv : rawDisplacement ⟨0, 0, 0⟩ pStill = ⟨0, -(1 / 1800), 0⟩ := by
    ext <;>
      simp [rawDisplacement, rawNewPos, applyForces, Particle.addForce,
        pStill, gravity, DRAG, DAMPING, timeStep] <;>
      norm_num
  have h2 : (rawDisplacement ⟨0, 0, 0⟩ pStill).length ≤ MAX_DISPLACEMENT := by
    rw [hv, Vec3.length_le_iff _ (by norm_num [MAX_DISPLACEMENT])]
    norm_num [MAX_DISPLACEMENT]
  exact ⟨h1, h2, (verlet_integration_commit ⟨0, 0, 0⟩ pStill h1 h2).2.1⟩

/-! ## Claim C4: the displacement clamp -/

/-- C4: the committed per-step displacement of an unpinned particle
never exceeds `MAX_DISPLACEMENT = 5`; and when the unclamped
displacement has length 50, the committed displacement is the unclamped
one rescaled by `5 / 50` (same direction) and has length exactly 5. -/
theorem displacement_clamp (wind : Vec3) (p : Particle)
    (hpin : p.pinned = false) :
    ((integrateParticle wind p).position - p.position).length ≤ MAX_DISPLACEMENT ∧
    ((rawDisplacement wind p).length = 50 →
      (integrateParticle wind p).position - p.position =
        (MAX_DISPLACEMENT / 50) • rawDisplacement wind p ∧
      ((integrateParticle wind p).position - p.position).length = 5) := by
  rw [integrateParticle_of_not_pinned wind hpin, verletStep_position]
  have hdef : rawNewPos (applyForces wind p) - (applyForces wind p).position =
      rawDisplacement wind p := rfl
  rw [hdef, applyForces_position]
  by_cases hlt : MAX_DISPLACEMENT < (rawDisplacement wind p).length
  · rw [if_pos hlt, Vec3.add_sub_cancel_left]
    have hpos : 0 < (rawDisplacement wind p).length :=
      lt_trans (by norm_num [MAX_DISPLACEMENT]) hlt
    have hlen : ((MAX_DISPLACEMENT / (rawDisplacement wind p).length) •
        rawDisplacement wind p).length = MAX_DISPLACEMENT := by
      rw [Vec3.length_smul,
        abs_of_pos (div_pos (by norm_num [MAX_DISPLACEMENT]) hpos),
        div_mul_cancel₀ _ (ne_of_gt hpos)]
    refine ⟨le_of_eq hlen, fun h50 => ⟨by rw [h50], ?_⟩⟩
    rw [hlen]
    norm_num [MAX_DISPLACEMENT]
  · rw [if_neg hlt]
    have hle := not_lt.mp hlt
    have hsub : p.position + (rawDisplacement wind p) - p.position =
        rawDisplacement wind p := Vec3.add_sub_cancel_left _ _
    have hraw : rawNewPos (applyForces wind p) =
        p.position + rawDisplacement wind p := by
      rw [← hdef, applyForces_position]
      ext <;> simp
    rw [hraw, hsub]
    exact ⟨hle, fun h50 => absurd hlt (by rw [h50]; norm_num [MAX_DISPLACEMENT])⟩

/-- Witness for C4 at a particle engineered for an unclamped
displacement of exactly 50 units. -/
theorem displacement_clamp_witness :
    pFast.pinned = false ∧
    (rawDisplacement ⟨0, 0, 0⟩ pFast).length = 50 ∧
    ((integrateParticle ⟨0, 0, 0⟩ pFast).position - pFast.position).length = 5 := by
  have h1 : pFast.pinned = false := rfl
  have hv : rawDisplacement ⟨0, 0, 0⟩ pFast = ⟨50, 0, 0⟩ := by
    ext <;>
      simp [rawDisplacement, rawNewPos, applyForces, Particle.addForce,
        pFast, gravity, DRAG, DAMPING, timeStep] <;>
      norm_num
  have hlen : (rawDisplacement ⟨0, 0, 0⟩ pFast).length = 50 := by
    rw [hv, Vec3.length_mk_x]
    norm_num
  exact ⟨h1, hlen, ((displacement_clamp ⟨0, 0, 0⟩ pFast h1).2 hlen).2⟩

/-! ## Claim C5: the accumulated acceleration (corrected) -/

/-- C5 counterexample: at a resting particle with zero wind, the
claimed acceleration — the plain sum of the three force contributions —
is `gravity + (0,0,0) + (0,0,0) = (0, -0.2, 0)`, but the code
accumulates each force divided by `mass = 0.1`, producing `(0, -2, 0)`. -/
theorem accel_is_not_plain_force_sum :
    (applyForces ⟨0, 0, 0⟩ pStill).acceleration = ⟨0, -2, 0⟩ ∧
    (applyForces ⟨0, 0, 0⟩ pStill).acceleration ≠
      gravity + ⟨0, 0, (Vec3.mk 0 0 0).y⟩ +
        ⟨0, 0, -pStill.position.z * 0.02⟩ := by
  have h : (applyForces ⟨0, 0, 0⟩ pStill).acceleration = ⟨0, -2, 0⟩ := by
    ext <;> simp [applyForces, Particle.addForce, pStill, gravity] <;> norm_num
  have hsum : gravity + ⟨0, 0, (Vec3.mk 0 0 0).y⟩ +
      ⟨0, 0, -pStill.position.z * 0.02⟩ = Vec3.mk 0 (-0.2) 0 := by
    ext <;> simp [gravity, pStill]
  refine ⟨h, ?_⟩
  rw [h, hsum]
  intro hcontra
  have := congrArg Vec3.y hcontra
  norm_num at this

/-- C5 amended: the acceleration accumulated before integration equals
the particle's prior acceleration plus the sum of the three specified
force contributions — gravity `(0, -0.2, 0)`, wind `(0, 0, windForce.y)`
and flattening `(0, 0, -0.02 * position.z)` — each divided by the
particle mass (`0.1` for the component's particles); no other force is
applied. -/
theorem forces_accumulated (wind : Vec3) (p : Particle) :
    (applyForces wind p).acceleration =
      p.acceleration + (1 / p.mass) •
        (gravity + ⟨0, 0, wind.y⟩ + ⟨0, 0, -p.position.z * 0.02⟩) := by
  ext <;> simp [applyForces, Particle.addForce, gravity] <;> ring

/-! ## Claim C7: degenerate constraints are a no-op -/

/-- C7: a `satisfy()` call with coincident endpoints (current distance
zero; over `ℝ` the only degenerate case) changes neither particle, and
otherwise each non-pinned endpoint moves by half of the correction
vector toward the rest distance. -/
theorem satisfy_cases (dist : ℝ) (p1 p2 : Particle) :
    ((p2.position - p1.position).length = 0 → satisfy dist p1 p2 = (p1, p2)) ∧
    ((p2.position - p1.position).length ≠ 0 →
      satisfy dist p1 p2 =
        (if p1.pinned then p1 else
          { p1 with position := p1.position + (0.5 : ℝ) •
              ((1 - dist / (p2.position - p1.position).length) •
                (p2.position - p1.position)) },
         if p2.pinned then p2 else
          { p2 with position := p2.position - (0.5 : ℝ) •
              ((1 - dist / (p2.position - p1.position).length) •
                (p2.position - p1.position)) })) := by
  constructor
  · intro h
    simp only [satisfy]
    rw [if_pos h]
  · intro h
    simp only [satisfy]
    rw [if_neg h]

/-- Witness for C7 at coincident particles. -/
theorem satisfy_cases_witness :
    (pStill.position - pStill.position).length = 0 ∧
    satisfy defaultConfig.restDistance pStill pStill = (pStill, pStill) := by
  have h0 : (pStill.position - pStill.position).length = 0 := by
    have hz : pStill.position - pStill.position = ⟨0, 0, 0⟩ := by
      ext <;> simp [pStill]
    rw [hz, Vec3.length_mk_x]
    norm_num
  exact ⟨h0, (satisfy_cases defaultConfig.restDistance pStill pStill).1 h0⟩

/-! ## Claim C10: midpoint preservation -/

/-- C10: when both endpoints are unpinned and the current distance is
nonzero, `satisfy()` applies equal and opposite half-corrections, so the
sum of the two positions is preserved. -/
theorem satisfy_preserves_sum (dist : ℝ) (p1 p2 : Particle)
    (h1 : p1.pinned = false) (h2 : p2.pinned = false)
    (hd : (p2.position - p1.position).length ≠ 0) :
    (satisfy dist p1 p2).1.position + (satisfy dist p1 p2).2.position =
      p1.position + p2.position := by
  simp only [satisfy]
  rw [if_neg hd]
  simp only [h1, h2, if_false, Bool.false_eq_true]
  ext <;> simp

/-- Witness for C10 at two distinct unpinned particles. -/
theorem satisfy_preserves_sum_witness :
    pStill.pinned = false ∧ pThree.pinned = false ∧
    (pThree.position - pStill.position).length ≠ 0 ∧
    (satisfy defaultConfig.restDistance pStill pThree).1.position +
      (satisfy defaultConfig.restDistance pStill pThree).2.position =
      pStill.position + pThree.position := by
  have hd : (pThree.position - pStill.position).length ≠ 0 := by
    have hz : pThree.position - pStill.position = ⟨3, 0, 0⟩ := by
      ext <;> simp [pThree, pStill]
    rw [hz, Vec3.length_mk_x]
    norm_num
  exact ⟨rfl, rfl, hd,
    satisfy_preserves_sum defaultConfig.restDistance pStill pThree rfl rfl hd⟩

/-! ## Claim C8: the stability test -/

/-- C8: `isClothStable` returns true iff every unpinned particle moved
at most `0.01` in norm and at most `0.05` along z since the previous
step; pinned particles are not examined, and any single violation makes
the result false. -/
theorem isClothStable_iff (ps : List Particle) :
    isClothStable ps = true ↔
      ∀ p ∈ ps, p.pinned = false →
        ((p.position - p.oldPosition).length ≤ 0.01 ∧
          |p.position.z - p.oldPosition.z| ≤ 0.05) := by
  rw [isClothStable, List.all_eq_true]
  constructor
  · intro h p hp hpin
    have hb := h p hp
    rw [if_neg (by simp [hpin])] at hb
    simp only [Bool.not_eq_true', Bool.or_eq_false_iff, decide_eq_false_iff_not,
      not_lt] at hb
    exact hb
  · intro h p hp
    by_cases hpin : p.pinned
    · simp [hpin]
    · have hb : p.pinned = false := by simpa using hpin
      have hle := h p hp hb
      simp [hb, not_lt, hle.1, hle.2]

/-- Witness for C8: a singleton list with a motionless unpinned
particle is stable. -/
theorem isClothStable_iff_witness : isClothStable [pStill] = true := by
  refine (isClothStable_iff [pStill]).mpr ?_
  intro p hp _
  rw [List.mem_singleton] at hp
  subst hp
  have hz : pStill.position - pStill.oldPosition = ⟨0, 0, 0⟩ := by
    ext <;> simp [pStill]
  constructor
  · rw [hz, Vec3.length_mk_x]
    norm_num
  · simp [pStill]
    norm_num

/-! ## Claim C9: the scroll-to-wind mapping -/

/-- C9: `handleScroll` clamps the scroll delta to `[-15, 15]` before
scaling by `0.15`; a delta of `+20` therefore yields a wind target of
exactly `15 * 0.15 = 2.25`; and a target is set at all exactly when the
clamped delta's magnitude exceeds 1. -/
theorem scroll_wind_mapping (prevY curY : ℝ) :
    (∀ t, windTarget prevY curY = some t →
        t = clampedScrollVelocity prevY curY * 0.15 ∧
        1 < |clampedScrollVelocity prevY curY|) ∧
    (windTarget prevY curY = none ↔
      ¬ 1 < |clampedScrollVelocity prevY curY|) ∧
    (curY - prevY = 20 → windTarget prevY curY = some 2.25) := by
  refine ⟨?_, ?_, ?_⟩
  · intro t ht
    by_cases h : 1 < |clampedScrollVelocity prevY curY|
    · rw [windTarget, if_pos h] at ht
      exact ⟨(Option.some_injective ℝ ht).symm, h⟩
    · rw [windTarget, if_neg h] at ht
      exact absurd ht (by simp)
  · by_cases h : 1 < |clampedScrollVelocity prevY curY| <;>
      simp [windTarget, h]
  · intro h20
    have hv : clampedScrollVelocity prevY curY = 15 := by
      rw [clampedScrollVelocity, h20, maxScrollVelocity]
      norm_num
    rw [windTarget, hv]
    norm_num

/-- Witness for C9 at a scroll delta of `+20`. -/
theorem scroll_wind_mapping_witness : windTarget 0 20 = some 2.25 :=
  (scroll_wind_mapping 0 20).2.2 (by norm_num)

/-! ## Claim C6: constraint construction order and set (corrected) -/

theorem Config.index_mod (cfg : Config) {u : ℕ} (v : ℕ)
    (hu : u < cfg.segmentsW + 1) :
    cfg.index u v % (cfg.segmentsW + 1) = u := by
  rw [Config.index, Nat.add_mul_mod_self_right, Nat.mod_eq_of_lt hu]

theorem Config.index_div (cfg : Config) {u : ℕ} (v : ℕ)
    (hu : u < cfg.segmentsW + 1) :
    cfg.index u v / (cfg.segmentsW + 1) = v := by
  rw [Config.index, Nat.add_mul_div_right _ _ (Nat.succ_pos _),
    Nat.div_eq_of_lt hu, zero_add]

theorem Config.index_inj (cfg : Config) {u v u' v' : ℕ}
    (hu : u < cfg.segmentsW + 1) (hu' : u' < cfg.segmentsW + 1)
    (h : cfg.index u v = cfg.index u' v') : u = u' ∧ v = v' := by
  have h1 : cfg.index u v % (cfg.segmentsW + 1) =
      cfg.index u' v' % (cfg.segmentsW + 1) := by rw [h]
  rw [cfg.index_mod v hu, cfg.index_mod v' hu'] at h1
  have h2 : cfg.index u v / (cfg.segmentsW + 1) =
      cfg.index u' v' / (cfg.segmentsW + 1) := by rw [h]
  rw [cfg.index_div v hu, cfg.index_div v' hu'] at h2
  exact ⟨h1, h2⟩

/-- The pairs of the pushed constraints are exactly `indexPairs`, in
order. -/
theorem constraintPairs_createConstraints (cfg : Config) :
    constraintPairs (createConstraints cfg) = indexPairs cfg := by
  simp only [constraintPairs, createConstraints, indexPairs, mainPairs,
    lastRowPairs, lastColPairs, List.map_append, List.map_flatMap,
    List.map_map, List.map_cons, List.map_nil, Function.comp_def]

/-- Any element of one inner block of `mainPairs` has the cell's index
as first component. -/
theorem fst_of_mem_innerBlock {cfg : Config} {v : ℕ} {pr : ℕ × ℕ}
    (h : pr ∈ (List.range cfg.segmentsW).flatMap fun u =>
      [(cfg.index u v, cfg.index (u + 1) v),
       (cfg.index u v, cfg.index u (v + 1))]) :
    ∃ u, u < cfg.segmentsW ∧ pr.1 = cfg.index u v := by
  simp only [List.mem_flatMap, List.mem_range, List.mem_cons,
    List.mem_singleton, List.not_mem_nil, or_false] at h
  obtain ⟨u, hu, hp | hp⟩ := h <;> exact ⟨u, hu, by rw [hp]⟩

theorem nodup_mainPairs (cfg : Config) : (mainPairs cfg).Nodup := by
  rw [mainPairs, List.nodup_flatMap]
  constructor
  · intro v hv
    rw [List.nodup_flatMap]
    constructor
    · intro u hu
      rw [List.mem_range] at hu
      simp only [List.nodup_cons, List.mem_singleton, List.not_mem_nil,
        not_false_iff, List.nodup_nil, and_true]
      intro hEq
      have h2 := congrArg Prod.snd hEq
      simp only [Config.index] at h2
      rw [Nat.succ_mul] at h2
      omega
    · refine (List.pairwise_lt_range _).imp ?_
      intro u u' hlt pr hpr hpr'
      simp only [List.mem_cons, List.mem_singleton, List.not_mem_nil,
        or_false] at hpr hpr'
      have e1 : pr.1 = cfg.index u v := by
        rcases hpr with h | h <;> rw [h]
      have e2 : pr.1 = cfg.index u' v := by
        rcases hpr' with h | h <;> rw [h]
      have e3 : cfg.index u v = cfg.index u' v := e1.symm.trans e2
      rw [Config.index, Config.index] at e3
      have := Nat.add_right_cancel e3
      omega
  · refine (List.pairwise_lt_range _).imp ?_
    intro v v' hlt pr hpr hpr'
    obtain ⟨u, hu, e1⟩ := fst_of_mem_innerBlock hpr
    obtain ⟨u', hu', e2⟩ := fst_of_mem_innerBlock hpr'
    have e3 : cfg.index u v = cfg.index u' v' := e1.symm.trans e2
    have := (cfg.index_inj (by omega) (by omega) e3).2
    omega

theorem nodup_lastRowPairs (cfg : Config) : (lastRowPairs cfg).Nodup := by
  rw [lastRowPairs]
  refine List.Nodup.map ?_ (List.nodup_range _)
  intro u u' h
  have h1 := congrArg Prod.fst h
  simp only [Config.index] at h1
  exact Nat.add_right_cancel h1

theorem nodup_lastColPairs (cfg : Config) : (lastColPairs cfg).Nodup := by
  rw [lastColPairs]
  refine List.Nodup.map ?_ (List.nodup_range _)
  intro v v' h
  have h1 := congrArg Prod.fst h
  simp only [Config.index] at h1
  have h2 := Nat.add_left_cancel h1
  exact Nat.eq_of_mul_eq_mul_right (Nat.succ_pos _) h2

theorem nodup_indexPairs (cfg : Config) : (indexPairs cfg).Nodup := by
  rw [indexPairs, List.append_assoc, List.nodup_append]
  refine ⟨nodup_mainPairs cfg, ?_, ?_⟩
  · rw [List.nodup_append]
    refine ⟨nodup_lastRowPairs cfg, nodup_lastColPairs cfg, ?_⟩
    intro pr hB hC
    rw [lastRowPairs, List.mem_map] at hB
    rw [lastColPairs, List.mem_map] at hC
    obtain ⟨u, hu, e1⟩ := hB
    obtain ⟨v, hv, e2⟩ := hC
    rw [List.mem_range] at hu hv
    have e3 : cfg.index u cfg.segmentsH = cfg.index cfg.segmentsW v :=
      congrArg Prod.fst (e1.trans e2.symm)
    have := (cfg.index_inj (by omega) (by omega) e3).1
    omega
  · intro pr hA hBC
    rw [mainPairs, List.mem_flatMap] at hA
    obtain ⟨v, hv, hblock⟩ := hA
    rw [List.mem_range] at hv
    obtain ⟨u, hu, e1⟩ := fst_of_mem_innerBlock hblock
    rw [List.mem_append] at hBC
    rcases hBC with hB | hC
    · rw [lastRowPairs, List.mem_map] at hB
      obtain ⟨u', hu', e2⟩ := hB
      rw [List.mem_range] at hu'
      have e3 : cfg.index u v = cfg.index u' cfg.segmentsH := by
        rw [← e1, ← e2]
      have := (cfg.index_inj (by omega) (by omega) e3).2
      omega
    · rw [lastColPairs, List.mem_map] at hC
      obtain ⟨v', hv', e2⟩ := hC
      have e3 : cfg.index u v = cfg.index cfg.segmentsW v' := by
        rw [← e1, ← e2]
      have := (cfg.index_inj (by omega) (by omega) e3).1
      omega

/-- Membership characterization of the constraint pairs: exactly the
grid-adjacent horizontal and vertical pairs, nothing else (in particular
no diagonal pairs). -/
theorem mem_indexPairs (cfg : Config) (pr : ℕ × ℕ) :
    pr ∈ indexPairs cfg ↔
      ((∃ u v, u < cfg.segmentsW ∧ v ≤ cfg.segmentsH ∧
          pr = (cfg.index u v, cfg.index (u + 1) v)) ∨
       (∃ u v, u ≤ cfg.segmentsW ∧ v < cfg.segmentsH ∧
          pr = (cfg.index u v, cfg.index u (v + 1)))) := by
  rw [indexPairs, List.append_assoc, List.mem_append, List.mem_append]
  constructor
  · rintro (hA | hB | hC)
    · rw [mainPairs, List.mem_flatMap] at hA
      obtain ⟨v, hv, hblock⟩ := hA
      rw [List.mem_range] at hv
      simp only [List.mem_flatMap, List.mem_range, List.mem_cons,
        List.mem_singleton, List.not_mem_nil, or_false] at hblock
      obtain ⟨u, hu, hp | hp⟩ := hblock
      · exact Or.inl ⟨u, v, hu, le_of_lt hv, hp⟩
      · exact Or.inr ⟨u, v, le_of_lt hu, hv, hp⟩
    · rw [lastRowPairs, List.mem_map] at hB
      obtain ⟨u, hu, e⟩ := hB
      rw [List.mem_range] at hu
      exact Or.inl ⟨u, cfg.segmentsH, hu, le_refl _, e.symm⟩
    · rw [lastColPairs, List.mem_map] at hC
      obtain ⟨v, hv, e⟩ := hC
      rw [List.mem_range] at hv
      exact Or.inr ⟨cfg.segmentsW, v, le_refl _, hv, e.symm⟩
  · rintro (⟨u, v, hu, hv, rfl⟩ | ⟨u, v, hu, hv, rfl⟩)
    · rcases lt_or_eq_of_le hv with hlt | rfl
      · refine Or.inl ?_
        rw [mainPairs, List.mem_flatMap]
        refine ⟨v, List.mem_range.mpr hlt, ?_⟩
        simp only [List.mem_flatMap, List.mem_range, List.mem_cons]
        exact ⟨u, hu, Or.inl rfl⟩
      · refine Or.inr (Or.inl ?_)
        rw [lastRowPairs, List.mem_map]
        exact ⟨u, List.mem_range.mpr hu, rfl⟩
    · rcases lt_or_eq_of_le hu with hlt | rfl
      · refine Or.inl ?_
        rw [mainPairs, List.mem_flatMap]
        refine ⟨v, List.mem_range.mpr hv, ?_⟩
        simp only [List.mem_flatMap, List.mem_range, List.mem_cons,
          List.mem_singleton]
        exact ⟨u, hlt, Or.inr (Or.inl rfl)⟩
      · refine Or.inr (Or.inr ?_)
        rw [lastColPairs, List.mem_map]
        exact ⟨v, List.mem_range.mpr hv, rfl⟩

/-- C6 counterexample: in the actual push order the second constraint
(index 1) is the vertical pair `(0, 41)` of cell `(0, 0)`, whereas the
claimed all-horizontal-first order would put the horizontal pair
`(1, 2)` there, so the two orders differ. -/
theorem constraint_order_counterexample :
    constraintPairs (createConstraints defaultConfig) ≠
      claimedPairs defaultConfig := by
  rw [constraintPairs_createConstraints]
  decide

/-- C6 amended: constraint relaxation visits constraints in their push
order of construction, which interleaves per cell — for each cell of the
main double loop in row-major order, its horizontal pair then its
vertical pair — followed by the last row's horizontal pairs and the last
column's vertical pairs.  The constraint set contains exactly one
constraint per grid-adjacent horizontal pair and one per grid-adjacent
vertical pair (its pair list has no duplicates), and nothing else — in
particular no diagonal constraints. -/
theorem constraint_construction (cfg : Config) :
    constraintPairs (createConstraints cfg) = indexPairs cfg ∧
    (constraintPairs (createConstraints cfg)).Nodup ∧
    ∀ pr : ℕ × ℕ, pr ∈ constraintPairs (createConstraints cfg) ↔
      ((∃ u v, u < cfg.segmentsW ∧ v ≤ cfg.segmentsH ∧
          pr = (cfg.index u v, cfg.index (u + 1) v)) ∨
       (∃ u v, u ≤ cfg.segmentsW ∧ v < cfg.segmentsH ∧
          pr = (cfg.index u v, cfg.index u (v + 1)))) := by
  refine ⟨constraintPairs_createConstraints cfg, ?_, ?_⟩
  · rw [constraintPairs_createConstraints]
    exact nodup_indexPairs cfg
  · intro pr
    rw [constraintPairs_createConstraints]
    exact mem_indexPairs cfg pr

/-! ## Claims C1 and C2: pinned immobility and explosion reset -/

/-- One `satisfy()` write-back never changes a pinned particle: its
pinned flag and position at any index are preserved. -/
theorem satisfyAt_get (ps : List Particle) (c : Constraint) (i : ℕ)
    (hi : i < ps.length) (hi' : i < (satisfyAt ps c).length) :
    ((satisfyAt ps c)[i]).pinned = (ps[i]).pinned ∧
    ((ps[i]).pinned = true →
      ((satisfyAt ps c)[i]).position = (ps[i]).position) := by
  simp only [satisfyAt] at hi' ⊢
  rw [List.getElem_set, List.getElem_set]
  by_cases h2 : c.p2 = i
  · rw [if_pos h2]
    have hD : ps.getD c.p2 default = ps[i] := by
      rw [h2, List.getD_eq_getElem?_getD, List.getElem?_eq_getElem hi]
      rfl
    constructor
    · rw [satisfy_snd_pinned, hD]
    · intro hpin
      rw [satisfy_snd_of_pinned _ _ (by rw [hD]; exact hpin), hD]
  · rw [if_neg h2]
    by_cases h1 : c.p1 = i
    · rw [if_pos h1]
      have hD : ps.getD c.p1 default = ps[i] := by
        rw [h1, List.getD_eq_getElem?_getD, List.getElem?_eq_getElem hi]
        rfl
      constructor
      · rw [satisfy_fst_pinned, hD]
      · intro hpin
        rw [satisfy_fst_of_pinned _ _ (by rw [hD]; exact hpin), hD]
    · rw [if_neg h1]
      exact ⟨rfl, fun _ => rfl⟩

/-- One relaxation pass preserves the array length and every pinned
particle. -/
theorem relaxOnce_get (cs : List Constraint) (ps : List Particle) :
    (relaxOnce cs ps).length = ps.length ∧
    ∀ i : ℕ, ∀ hi : i < ps.length, ∀ hi' : i < (relaxOnce cs ps).length,
      ((relaxOnce cs ps)[i]).pinned = (ps[i]).pinned ∧
      ((ps[i]).pinned = true →
        ((relaxOnce cs ps)[i]).position = (ps[i]).position) := by
  induction cs generalizing ps with
  | nil => exact ⟨rfl, fun i hi hi' => ⟨rfl, fun _ => rfl⟩⟩
  | cons c cs ih =>
    have hstep : relaxOnce (c :: cs) ps = relaxOnce cs (satisfyAt ps c) := rfl
    rw [hstep]
    obtain ⟨ihL, ihG⟩ := ih (satisfyAt ps c)
    have hsL : (satisfyAt ps c).length = ps.length := by simp [satisfyAt]
    refine ⟨ihL.trans hsL, ?_⟩
    intro i hi hi'
    have hi2 : i < (satisfyAt ps c).length := hsL ▸ hi
    obtain ⟨f1, g1⟩ := satisfyAt_get ps c i hi hi2
    obtain ⟨f2, g2⟩ := ihG i hi2 hi'
    refine ⟨f2.trans f1, fun hpin => ?_⟩
    exact (g2 (f1.trans hpin)).trans (g1 hpin)

/-- The five relaxation passes preserve the array length and every
pinned particle. -/
theorem relax_get (cs : List Constraint) (ps : List Particle) :
    (relax cs ps).length = ps.length ∧
    ∀ i : ℕ, ∀ hi : i < ps.length, ∀ hi' : i < (relax cs ps).length,
      ((relax cs ps)[i]).pinned = (ps[i]).pinned ∧
      ((ps[i]).pinned = true →
        ((relax cs ps)[i]).position = (ps[i]).position) := by
  suffices h : ∀ n : ℕ, ∀ ps : List Particle,
      ((relaxOnce cs)^[n] ps).length = ps.length ∧
      ∀ i : ℕ, ∀ hi : i < ps.length, ∀ hi' : i < ((relaxOnce cs)^[n] ps).length,
        (((relaxOnce cs)^[n] ps)[i]).pinned = (ps[i]).pinned ∧
        ((ps[i]).pinned = true →
          (((relaxOnce cs)^[n] ps)[i]).position = (ps[i]).position) by
    exact h 5 ps
  intro n
  induction n with
  | zero => exact fun ps => ⟨rfl, fun i hi hi' => ⟨rfl, fun _ => rfl⟩⟩
  | succ n ih =>
    intro ps
    rw [Function.iterate_succ_apply]
    obtain ⟨onceL, onceG⟩ := relaxOnce_get cs ps
    obtain ⟨ihL, ihG⟩ := ih (relaxOnce cs ps)
    refine ⟨ihL.trans onceL, ?_⟩
    intro i hi hi'
    have hi2 : i < (relaxOnce cs ps).length := onceL ▸ hi
    obtain ⟨f1, g1⟩ := onceG i hi hi2
    obtain ⟨f2, g2⟩ := ihG i hi2 hi'
    refine ⟨f2.trans f1, fun hpin => ?_⟩
    exact (g2 (f1.trans hpin)).trans (g1 hpin)

/-- The integration plus relaxation stages of `simulate()` preserve the
array length and every pinned particle. -/
theorem afterConstraints_get (s : SimState) :
    (afterConstraints s).length = s.particles.length ∧
    ∀ i : ℕ, ∀ hi : i < s.particles.length,
      ∀ hi' : i < (afterConstraints s).length,
        ((afterConstraints s)[i]).pinned = (s.particles[i]).pinned ∧
        ((s.particles[i]).pinned = true →
          ((afterConstraints s)[i]).position = (s.particles[i]).position) := by
  have hmapL : (integrateAll s).length = s.particles.length := by
    simp [integrateAll]
  obtain ⟨rL, rG⟩ := relax_get s.constraints (integrateAll s)
  refine ⟨rL.trans hmapL, ?_⟩
  intro i hi hi'
  have hi2 : i < (integrateAll s).length := hmapL ▸ hi
  have f1 : ((integrateAll s)[i]).pinned = (s.particles[i]).pinned := by
    simp [integrateAll]
  have g1 : (s.particles[i]).pinned = true →
      ((integrateAll s)[i]).position = (s.particles[i]).position := by
    intro hpin
    simp only [integrateAll, List.getElem_map]
    rw [integrateParticle_of_pinned _ hpin]
  obtain ⟨f2, g2⟩ := rG i hi2 hi'
  refine ⟨f2.trans f1, fun hpin => ?_⟩
  exact (g2 (f1.trans hpin)).trans (g1 hpin)

theorem pinnedInv_initState (cfg : Config) : PinnedInv cfg (initState cfg) :=
  ⟨rfl, fun _ _ _ => ⟨rfl, fun _ => rfl⟩⟩

theorem pinnedInv_simulate (cfg : Config) (s : SimState)
    (h : PinnedInv cfg s) : PinnedInv cfg (simulate cfg s) := by
  rw [simulate]
  by_cases hx : checkSimulationExploded (afterConstraints s)
  · rw [if_pos hx]
    exact pinnedInv_initState cfg
  · rw [if_neg hx]
    obtain ⟨hlen, hinv⟩ := h
    obtain ⟨aL, aG⟩ := afterConstraints_get s
    refine ⟨aL.trans hlen, ?_⟩
    intro i hi hj
    have hi2 : i < s.particles.length := aL ▸ hi
    obtain ⟨f1, g1⟩ := aG i hi2 hi
    obtain ⟨f2, g2⟩ := hinv i hi2 hj
    simp only [List.get_eq_getElem] at f2 g2 ⊢
    refine ⟨f1.trans f2, fun hpin => ?_⟩
    have hp0 : (s.particles[i]).pinned = true := f1.symm.trans hpin
    exact (g1 hp0).trans (g2 hp0)

theorem pinnedInv_setWind (cfg : Config) (w : Vec3) (s : SimState)
    (h : PinnedInv cfg s) : PinnedInv cfg (setWind w s) := h

theorem reaches_pinnedInv {cfg : Config} {s : SimState}
    (h : Reaches cfg s) : PinnedInv cfg s := by
  induction h with
  | init => exact pinnedInv_initState cfg
  | step w s hs ih => exact pinnedInv_simulate cfg _ (pinnedInv_setWind cfg w s ih)

/-- C1: a particle pinned in the initial grid sits at its initial
position in every state reachable by any number of `simulate()` calls,
whatever wind forces are applied in between and however the other
particles move — neither force application (skipped for pinned
particles), nor Verlet integration (skipped), nor constraint relaxation
(pinned endpoints are not written), nor the explosion reset (rebuilds at
the rest pose, where pinned particles already are) moves it. -/
theorem pinned_immobility (cfg : Config) (s : SimState) (hs : Reaches cfg s)
    (i : ℕ) (hj : i < (createParticles cfg).length)
    (hp : ((createParticles cfg).get ⟨i, hj⟩).pinned = true) :
    ∃ hi : i < s.particles.length,
      (s.particles.get ⟨i, hi⟩).position =
        ((createParticles cfg).get ⟨i, hj⟩).position := by
  obtain ⟨hlen, hinv⟩ := reaches_pinnedInv hs
  have hi : i < s.particles.length := hlen ▸ hj
  obtain ⟨hflag, hpos⟩ := hinv i hi hj
  exact ⟨hi, hpos (hflag.trans hp)⟩

theorem createParticles_length (cfg : Config) :
    (createParticles cfg).length =
      (cfg.segmentsH + 1) * (cfg.segmentsW + 1) := by
  rw [createParticles, List.length_flatMap]
  have hmap : List.map
      (List.length ∘ fun v => (List.range (cfg.segmentsW + 1)).map
        fun u => mkParticle cfg u v)
      (List.range (cfg.segmentsH + 1)) =
      List.map (fun _ => cfg.segmentsW + 1) (List.range (cfg.segmentsH + 1)) := by
    simp [Function.comp_def]
  rw [hmap, List.map_const', List.sum_replicate, smul_eq_mul, List.length_range]

theorem createParticles_get_zero (cfg : Config)
    (h : 0 < (createParticles cfg).length) :
    (createParticles cfg).get ⟨0, h⟩ = mkParticle cfg 0 0 := by
  simp only [createParticles, List.range_succ_eq_map, List.flatMap_cons,
    List.map_cons, List.cons_append, List.get_eq_getElem,
    List.getElem_cons_zero]

/-- Witness for C1: on a 1×1-segment grid, after one `simulate()` step
under a nonzero wind, the pinned corner particle is still at its initial
position. -/
theorem pinned_immobility_witness :
    ∃ hj : 0 < (createParticles cfgSmall).length,
      ((createParticles cfgSmall).get ⟨0, hj⟩).pinned = true ∧
      ∃ hi : 0 < (simulate cfgSmall
          (setWind ⟨0, 0, 2⟩ (initState cfgSmall))).particles.length,
        ((simulate cfgSmall
            (setWind ⟨0, 0, 2⟩ (initState cfgSmall))).particles.get
          ⟨0, hi⟩).position =
          ((createParticles cfgSmall).get ⟨0, hj⟩).position := by
  have hj : 0 < (createParticles cfgSmall).length := by
    rw [createParticles_length]
    norm_num
  have hp : ((createParticles cfgSmall).get ⟨0, hj⟩).pinned = true := by
    rw [createParticles_get_zero]
    simp [mkParticle]
  exact ⟨hj, hp, pinned_immobility cfgSmall _
    (Reaches.step ⟨0, 0, 2⟩ _ Reaches.init) 0 hj hp⟩

/-- C2: when, after the constraint-relaxation stage, some particle's
position has a coordinate of magnitude above 1000 (over `ℝ` the only
form of the explosion check; the source's `isNaN` tests cannot fire),
`simulate()` performs the full reset: the particle array is rebuilt
exactly at the original flat rest pose, the wind force becomes
`(0, 0, 0)`, and `isSimulationActive` is cleared (mode `Idle`). -/
theorem explosion_full_reset (cfg : Config) (s : SimState)
    (h : checkSimulationExploded (afterConstraints s)) :
    (simulate cfg s).particles = createParticles cfg ∧
    (simulate cfg s).windForce = ⟨0, 0, 0⟩ ∧
    (simulate cfg s).isSimulationActive = false := by
  rw [simulate, if_pos h]
  exact ⟨rfl, rfl, rfl⟩

/-- Witness for C2: a state holding one pinned particle at
`(2000, 0, 0)` explodes and is fully reset. -/
theorem explosion_full_reset_witness :
    checkSimulationExploded (afterConstraints sFar) ∧
    (simulate cfgSmall sFar).particles = createParticles cfgSmall ∧
    (simulate cfgSmall sFar).windForce = ⟨0, 0, 0⟩ ∧
    (simulate cfgSmall sFar).isSimulationActive = false := by
  have h1 : integrateAll sFar = [pFar] := by
    rw [integrateAll]
    have hint : integrateParticle (⟨0, 0, 0⟩ : Vec3) pFar = pFar :=
      integrateParticle_of_pinned _ rfl
    simp [sFar, hint]
  have hstage : afterConstraints sFar = [pFar] := by
    rw [afterConstraints, h1, relax]
    exact Function.iterate_fixed rfl 5
  have hx : checkSimulationExploded (afterConstraints sFar) := by
    rw [hstage, checkSimulationExploded]
    refine ⟨pFar, List.mem_singleton.mpr rfl, Or.inl ?_⟩
    norm_num [pFar]
  exact ⟨hx, explosion_full_reset cfgSmall sFar hx⟩

end

end Fabric
